import Mathlib

/-!
Shallow embedding of the nginx-healthz client (package nginxhealthz,
client.go of qba73/nginx-healthz) together with proofs about its stats
aggregation, zone resolution and construction logic.

Modelling conventions:
* Go `int` fields are modelled as `Int`; machine-width wraparound is not
  modelled (reaching it would need more than 2^63 peers in total).
* The HTTP layer (`c.get`) is modelled as a `Transport` value giving, per URL,
  either the decoded body or an error string; an error covers every
  transport-level failure (request build, network, non-200 status, decode).
* The concurrent fan-out of `GetStatsForUpstreams` is modelled as a left fold;
  the merge is built from atomic per-component additions, so every
  interleaving of the goroutines produces the fold's value.
* A Go runtime panic (the unchecked type assertion in
  `hostnameUpstreamsFromResponse`) is modelled as the `Outcome.panic`
  constructor, distinct from an error return.
-/

namespace NginxHealthz

/-- One backend server inside an upstream pool. Of the decoded peer record the
client logic reads only `State`; `Server` and `Name` are kept as identifying
attributes, and the remaining telemetry fields (ssl, responses, health checks,
downtime, selected) are decoded but never read by any function modelled here,
so they are omitted from the embedding. -/
structure Peer where
  Server : String
  Name : String
  State : String
deriving Repr, DecidableEq

/-- Decoded body of one single-upstream query (Go struct `responseUpstream`). -/
structure ResponseUpstream where
  Peers : List Peer
  Keepalive : Int
  Zombies : Int
  Zone : String
deriving Repr, DecidableEq

/-- Health summary of one or more upstreams (Go struct `Stats`). -/
structure Stats where
  Total : Int
  Up : Int
  Down : Int
deriving Repr, DecidableEq

/-- Client configuration (Go struct `Client`). The `http.Client` field holds
no data the modelled logic reads; the transport behaviour is passed separately
as a `Transport` value. -/
structure Client where
  version : Int
  baseURL : String
deriving Repr, DecidableEq

/-- Go `type option func(*Client) error`: a configuration option either
updates the client or fails. -/
abbrev option : Type := Client → Except String Client

/-- Go `WithVersion`: accepts exactly the versions 4, 5, 6, 7 and 8. -/
def WithVersion (v : Int) : option :=
  fun c =>
    if v = 4 ∨ v = 5 ∨ v = 6 ∨ v = 7 ∨ v = 8 then
      Except.ok { c with version := v }
    else
      Except.error ("unsupported NGINX version: " ++ toString v)

/-- The option loop of `NewClient`: options run in order and the first failing
option aborts construction. -/
def applyOptions : List option → Client → Except String Client
  | [], c => Except.ok c
  | o :: os, c =>
    match o c with
    | Except.error e => Except.error e
    | Except.ok c2 => applyOptions os c2

/-- Go `NewClient`: rejects only the empty base URL (no further URL syntax
validation), starts from the default version 8, then applies the options. -/
def NewClient (baseURL : String) (opts : List option) : Except String Client :=
  if baseURL = "" then
    Except.error "invalid base URL"
  else
    applyOptions opts ⟨8, baseURL⟩

/-- Generic JSON value: the decode target Go uses for the zones query, where
the response shape is an open map keyed by upstream name. -/
inductive Json where
  | null : Json
  | bool : Bool → Json
  | num : Int → Json
  | str : String → Json
  | arr : List Json → Json
  | obj : List (String × Json) → Json

/-- Behaviour of the HTTP layer (`c.get`) at the two decode targets the client
uses: the typed single-upstream payload and the open zones payload. Decoded Go
JSON objects have unique keys; they are modelled as association lists looked
up by first binding. -/
structure Transport where
  getUpstream : String → Except String ResponseUpstream
  getZones : String → Except String Json

/-- URL built by `GetStatsFor`. -/
def statsForURL (c : Client) (upstream : String) : String :=
  c.baseURL ++ "/api/" ++ toString c.version ++ "/http/upstreams/" ++ upstream

/-- URL built by `GetUpstreamsFor`. -/
def zonesURL (c : Client) : String :=
  c.baseURL ++ "/api/" ++ toString c.version ++ "/http/upstreams?fields=zone"

/-- Go `calculateStatsFor`: an empty peer list is an error; otherwise the
peer list reduces to total count, count of peers whose state is literally
"up", and their difference. -/
def calculateStatsFor (upstream : String) (res : ResponseUpstream) : Except String Stats :=
  if res.Peers.length < 1 then
    Except.error "no servers in upstream"
  else
    let total : Int := res.Peers.length
    let up : Int := (res.Peers.filter (fun p => p.State == "up")).length
    let down : Int := total - up
    Except.ok ⟨total, up, down⟩

/-- Go `GetStatsFor`: fetch and decode the one-upstream payload, propagating
the transport error unchanged, then reduce it. -/
def GetStatsFor (c : Client) (t : Transport) (upstream : String) : Except String Stats :=
  match t.getUpstream (statsForURL c upstream) with
  | Except.error e => Except.error e
  | Except.ok res => calculateStatsFor upstream res

/-- Componentwise sum: the effect of the three atomic additions one succeeding
fetch performs on the shared accumulators of `GetStatsForUpstreams`. -/
def addStats (a b : Stats) : Stats :=
  ⟨a.Total + b.Total, a.Up + b.Up, a.Down + b.Down⟩

/-- Body of one fan-out task of `GetStatsForUpstreams`: a failing fetch leaves
the accumulators untouched, a succeeding one adds its counts. -/
def mergeStep (c : Client) (t : Transport) (acc : Stats) (u : String) : Stats :=
  match GetStatsFor c t u with
  | Except.error _ => acc
  | Except.ok stat => addStats acc stat

/-- Go `GetStatsForUpstreams`. The Go function runs one goroutine per name and
merges with atomic uint64 additions behind a WaitGroup barrier; each task's
contribution is a pure function of its name, and addition of every component
is commutative and associative, so every interleaving yields the value of this
left fold (the uint64 round trip is the identity on the non-negative counts
`calculateStatsFor` produces). The Go signature has no error result. -/
def GetStatsForUpstreams (c : Client) (t : Transport) (upstreams : List String) : Stats :=
  upstreams.foldl (mergeStep c t) ⟨0, 0, 0⟩

/-- Go `strings.Split` for the single-character separator "-": decomposition
around each '-' (n separators yield n+1 pieces, empty pieces included). -/
def splitDash : List Char → List (List Char)
  | [] => [[]]
  | ch :: cs =>
    match splitDash cs with
    | [] => [[ch]]
    | h :: t => if ch = '-' then [] :: h :: t else (ch :: h) :: t

/-- Hostname derivation used by `hostnameUpstreamsFromResponse`:
`strings.Split(zone, "-")[0]` (the split is never empty, so index 0 exists). -/
def deriveHost (zone : String) : String :=
  String.mk ((splitDash zone.data).headD [])

/-- The map update of `hostnameUpstreamsFromResponse`: start a singleton slice
under a fresh key, append to the existing slice otherwise. -/
def addUpstream (m : List (String × List String)) (host u : String) :
    List (String × List String) :=
  match List.lookup host m with
  | none => m ++ [(host, [u])]
  | some _ => m.map (fun p => if p.1 = host then (p.1, p.2 ++ [u]) else p)

/-- One iteration of the loop of `hostnameUpstreamsFromResponse` over the
entry (u, v) of the decoded zone map: a value that is not an object, or whose
"zone" field is missing or not a string, is skipped; otherwise the upstream
name is recorded when the derived hostname equals the requested one. -/
def processZoneEntry (hostname : String) (m : List (String × List String))
    (u : String) (v : Json) : List (String × List String) :=
  match v with
  | Json.obj fields =>
    match List.lookup "zone" fields with
    | some (Json.str z) =>
      if deriveHost z = hostname then addUpstream m (deriveHost z) u else m
    | _ => m
  | _ => m

/-- Go `hostnameUpstreamsFromResponse`. The unchecked type assertion
`res.(map[string]interface nothing)` panics when the decoded top-level value is
not an object: that case is `none`. Go map iteration order is unspecified; the
association-list order stands in for one iteration order. -/
def hostnameUpstreamsFromResponse (hostname : String) (res : Json) :
    Option (List (String × List String)) :=
  match res with
  | Json.obj entries =>
    some (entries.foldl (fun m e => processZoneEntry hostname m e.1 e.2) [])
  | _ => none

/-- Result of a Go call that can return a value, return an error, or panic. -/
inductive Outcome (α : Type) where
  | ok : α → Outcome α
  | err : String → Outcome α
  | panic : Outcome α
deriving Repr, DecidableEq

/-- Go `GetUpstreamsFor`: fetch the zones payload (wrapping a fetch error),
then group the matching upstream names; a non-object payload panics inside
`hostnameUpstreamsFromResponse`. -/
def GetUpstreamsFor (c : Client) (t : Transport) (hostname : String) :
    Outcome (List (String × List String)) :=
  match t.getZones (zonesURL c) with
  | Except.error e => Outcome.err ("retrieving zones: " ++ e)
  | Except.ok response =>
    match hostnameUpstreamsFromResponse hostname response with
    | none => Outcome.panic
    | some m => Outcome.ok m

/-- Go `GetStatsForHost`: resolve the upstream names of the hostname, fail
when resolution fails (wrapped with the hostname) or the hostname key is
absent, otherwise aggregate over the resolved names. -/
def GetStatsForHost (c : Client) (t : Transport) (hostname : String) : Outcome Stats :=
  match GetUpstreamsFor c t hostname with
  | Outcome.panic => Outcome.panic
  | Outcome.err e =>
    Outcome.err ("getting stats for host " ++ hostname ++ ": " ++ e)
  | Outcome.ok upstreams =>
    match List.lookup hostname upstreams with
    | none => Outcome.err ("no stat data for host " ++ hostname)
    | some ux => Outcome.ok (GetStatsForUpstreams c t ux)

/-! ### Helper definitions and lemmas for the aggregation algebra -/

/-- Componentwise sum of a list of Stats values. -/
def sumStats (l : List Stats) : Stats :=
  ⟨(l.map Stats.Total).sum, (l.map Stats.Up).sum, (l.map Stats.Down).sum⟩

lemma addStats_zero_left (s : Stats) : addStats ⟨0, 0, 0⟩ s = s := by
  cases s
  simp [addStats]

lemma sumStats_nil : sumStats [] = ⟨0, 0, 0⟩ := rfl

lemma sumStats_cons (s : Stats) (l : List Stats) :
    sumStats (s :: l) = addStats s (sumStats l) := by
  simp [sumStats, addStats]

lemma foldl_addStats_eq (l : List Stats) (init : Stats) :
    l.foldl addStats init = addStats init (sumStats l) := by
  induction l generalizing init with
  | nil => cases init; simp [sumStats, addStats]
  | cons s l ih =>
    rw [List.foldl_cons, ih (addStats init s), sumStats_cons]
    cases init; cases s
    simp [addStats, add_assoc]

lemma foldl_mergeStep_eq (c : Client) (t : Transport) (l : List String) (init : Stats) :
    l.foldl (mergeStep c t) init
      = (l.filterMap (fun u => (GetStatsFor c t u).toOption)).foldl addStats init := by
  induction l generalizing init with
  | nil => rfl
  | cons u l ih =>
    rw [List.foldl_cons]
    cases h : GetStatsFor c t u with
    | error e => simp [mergeStep, h, Except.toOption, ih]
    | ok s => simp [mergeStep, h, Except.toOption, ih]

lemma getStatsForUpstreams_eq_sum (c : Client) (t : Transport) (l : List String) :
    GetStatsForUpstreams c t l
      = sumStats (l.filterMap (fun u => (GetStatsFor c t u).toOption)) := by
  rw [GetStatsForUpstreams, foldl_mergeStep_eq, foldl_addStats_eq, addStats_zero_left]

lemma length_filter_add_length_filter_not {α : Type} (p : α → Bool) (l : List α) :
    (l.filter p).length + (l.filter (fun a => !(p a))).length = l.length := by
  induction l with
  | nil => rfl
  | cons a l ih =>
    cases h : p a <;> simp [List.filter_cons, h] <;> omega

/-! ### Claim theorems -/

/-- Claim C1: for every upstream-name list and every assignment of per-upstream
fetch outcomes (induced by the transport), `GetStatsForUpstreams` returns —
its Go signature has no error result — the componentwise sum of the Stats of
exactly the upstreams whose fetch succeeded; a failing fetch contributes
nothing and aborts nothing, and the empty list yields `Stats 0 0 0`. -/
theorem getStatsForUpstreams_sums_succeeding (c : Client) (t : Transport)
    (upstreams : List String) :
    GetStatsForUpstreams c t upstreams
      = sumStats (upstreams.filterMap (fun u => (GetStatsFor c t u).toOption))
    ∧ GetStatsForUpstreams c t [] = ⟨0, 0, 0⟩ :=
  ⟨getStatsForUpstreams_eq_sum c t upstreams, rfl⟩

/-- Claim C2: on a non-empty peer list, `calculateStatsFor` returns Total = number
of peers, Up = number of peers whose state is literally "up", Down = Total −
Up; and the peers not counted up are exactly those with any other state, so
Down also equals the number of peers whose state differs from "up". -/
theorem calculateStatsFor_counts (upstream : String) (res : ResponseUpstream)
    (h : res.Peers ≠ []) :
    calculateStatsFor upstream res = Except.ok
      ⟨(res.Peers.length : Int),
       ((res.Peers.filter (fun p => p.State == "up")).length : Int),
       (res.Peers.length : Int)
         - ((res.Peers.filter (fun p => p.State == "up")).length : Int)⟩
    ∧ (res.Peers.length : Int)
        - ((res.Peers.filter (fun p => p.State == "up")).length : Int)
        = ((res.Peers.filter (fun p => !(p.State == "up"))).length : Int) := by
  constructor
  · rw [calculateStatsFor, if_neg]
    intro hlt
    exact h (List.length_eq_zero.mp (by omega))
  · have := length_filter_add_length_filter_not (fun p => p.State == "up") res.Peers
    omega

/-- Witness for C2 at a concrete two-peer response with one peer up. -/
theorem calculateStatsFor_counts_witness :
    calculateStatsFor "hg-backend"
      ⟨[⟨"10.0.0.42:8084", "10.0.0.42:8084", "up"⟩,
        ⟨"10.0.0.41:8084", "10.0.0.41:8084", "down"⟩], 0, 0, "bar.example.org-hg-backend"⟩
      = Except.ok ⟨2, 1, 1⟩ := by
  have h := (calculateStatsFor_counts "hg-backend"
    ⟨[⟨"10.0.0.42:8084", "10.0.0.42:8084", "up"⟩,
      ⟨"10.0.0.41:8084", "10.0.0.41:8084", "down"⟩], 0, 0, "bar.example.org-hg-backend"⟩
    (by decide)).1
  simpa using h

/-- Claim C5: `calculateStatsFor` fails exactly on an empty peer list, with the
no-servers error, and `GetStatsFor` on a successfully decoded response with
zero peers fails with that error rather than returning a zero-value Stats. -/
theorem calculateStatsFor_error_iff_empty (upstream : String) (res : ResponseUpstream)
    (c : Client) (t : Transport) :
    ((∃ e, calculateStatsFor upstream res = Except.error e) ↔ res.Peers = [])
    ∧ (res.Peers = [] →
        calculateStatsFor upstream res = Except.error "no servers in upstream")
    ∧ (t.getUpstream (statsForURL c upstream) = Except.ok res → res.Peers = [] →
        GetStatsFor c t upstream = Except.error "no servers in upstream") := by
  have hempty : res.Peers = [] →
      calculateStatsFor upstream res = Except.error "no servers in upstream" := by
    intro he
    rw [calculateStatsFor, if_pos]
    simp [he]
  refine ⟨⟨?_, fun he => ⟨_, hempty he⟩⟩, hempty, ?_⟩
  · rintro ⟨e, hE⟩
    by_contra hne
    rw [calculateStatsFor, if_neg] at hE
    · exact Except.noConfusion hE
    · intro hlt
      exact hne (List.length_eq_zero.mp (by omega))
  · intro hok he
    rw [GetStatsFor, hok]
    exact hempty he

lemma sumStats_perm (l₁ l₂ : List Stats) (h : l₁.Perm l₂) : sumStats l₁ = sumStats l₂ := by
  simp only [sumStats]
  rw [(h.map Stats.Total).sum_eq, (h.map Stats.Up).sum_eq, (h.map Stats.Down).sum_eq]

/-- Claim C4: with a fixed transport, `GetStatsForUpstreams` returns an identical
Stats value on any permutation of the input name list: the merge is a
componentwise sum, commutative and associative, so neither input order nor
completion order affects the result. -/
theorem getStatsForUpstreams_perm_invariant (c : Client) (t : Transport)
    (l₁ l₂ : List String) (h : l₁.Perm l₂) :
    GetStatsForUpstreams c t l₁ = GetStatsForUpstreams c t l₂ := by
  rw [getStatsForUpstreams_eq_sum, getStatsForUpstreams_eq_sum]
  exact sumStats_perm _ _ (h.filterMap _)

/-- Concrete demo client used by witnesses. -/
def cDemo : Client := ⟨8, "http://localhost:9001"⟩

/-- Concrete demo transport: two reachable upstreams with two peers each (one
pool fully up, one pool half up), every other URL unreachable; the zones
payload lists three upstreams, two of them under hostname bar.example.org. -/
def tDemo : Transport :=
  ⟨fun url =>
    if url = statsForURL cDemo "hg-backend" then
      Except.ok ⟨[⟨"10.0.0.42:8084", "10.0.0.42:8084", "up"⟩,
                  ⟨"10.0.0.41:8084", "10.0.0.41:8084", "down"⟩], 0, 0,
                 "bar.example.org-hg-backend"⟩
    else if url = statsForURL cDemo "lxr-backend" then
      Except.ok ⟨[⟨"10.0.0.42:8085", "10.0.0.42:8085", "up"⟩,
                  ⟨"10.0.0.41:8085", "10.0.0.41:8085", "up"⟩], 0, 0,
                 "bar.example.org-lxr-backend"⟩
    else Except.error "sending request: connection refused",
   fun _ =>
    Except.ok (Json.obj
      [("hg-backend", Json.obj [("zone", Json.str "bar.example.org-hg-backend")]),
       ("lxr-backend", Json.obj [("zone", Json.str "bar.example.org-lxr-backend")]),
       ("demo-backend", Json.obj [("zone", Json.str "foo.example.com-demo-backend")])])⟩

/-- Witness for C4: swapping the two demo upstream names leaves the merged
Stats unchanged. -/
theorem getStatsForUpstreams_perm_invariant_witness :
    GetStatsForUpstreams cDemo tDemo ["hg-backend", "lxr-backend"]
      = GetStatsForUpstreams cDemo tDemo ["lxr-backend", "hg-backend"] :=
  getStatsForUpstreams_perm_invariant cDemo tDemo
    ["hg-backend", "lxr-backend"] ["lxr-backend", "hg-backend"]
    (List.Perm.swap "lxr-backend" "hg-backend" [])

/-! ### The Stats well-formedness invariant -/

/-- A Stats value is well formed when its up and down counts are non-negative
and sum to its total. -/
def statsWF (s : Stats) : Prop :=
  s.Up + s.Down = s.Total ∧ 0 ≤ s.Total ∧ 0 ≤ s.Up ∧ 0 ≤ s.Down

lemma statsWF_zero : statsWF ⟨0, 0, 0⟩ := by
  refine ⟨?_, ?_, ?_, ?_⟩ <;> simp

lemma statsWF_add (a b : Stats) (ha : statsWF a) (hb : statsWF b) :
    statsWF (addStats a b) := by
  obtain ⟨ha1, ha2, ha3, ha4⟩ := ha
  obtain ⟨hb1, hb2, hb3, hb4⟩ := hb
  refine ⟨?_, ?_, ?_, ?_⟩ <;> simp [addStats] <;> omega

lemma calculateStatsFor_wf (upstream : String) (res : ResponseUpstream) (s : Stats)
    (h : calculateStatsFor upstream res = Except.ok s) : statsWF s := by
  rw [calculateStatsFor] at h
  by_cases hlt : res.Peers.length < 1
  · rw [if_pos hlt] at h
    exact Except.noConfusion h
  · rw [if_neg hlt] at h
    have hs := Except.ok.inj h
    have hle : (res.Peers.filter (fun p => p.State == "up")).length ≤ res.Peers.length :=
      List.length_filter_le _ _
    subst hs
    refine ⟨?_, ?_, ?_, ?_⟩ <;> simp <;> omega

lemma getStatsFor_wf (c : Client) (t : Transport) (u : String) (s : Stats)
    (h : GetStatsFor c t u = Except.ok s) : statsWF s := by
  rw [GetStatsFor] at h
  cases hg : t.getUpstream (statsForURL c u) with
  | error e => rw [hg] at h; exact Except.noConfusion h
  | ok res => rw [hg] at h; exact calculateStatsFor_wf u res s h

lemma foldl_mergeStep_wf (c : Client) (t : Transport) (l : List String) (acc : Stats)
    (hacc : statsWF acc) : statsWF (l.foldl (mergeStep c t) acc) := by
  induction l generalizing acc with
  | nil => exact hacc
  | cons u l ih =>
    rw [List.foldl_cons]
    refine ih _ ?_
    rw [mergeStep]
    cases h : GetStatsFor c t u with
    | error e => exact hacc
    | ok stat => exact statsWF_add acc stat hacc (getStatsFor_wf c t u stat h)

/-- Claim C9: Up + Down = Total with all three components non-negative holds for
every Stats a single upstream query returns, is preserved by the aggregating
merge even under partial failure, and hence holds for every Stats
`GetStatsForHost` returns. -/
theorem stats_invariant_up_add_down (upstream : String) (res : ResponseUpstream)
    (c : Client) (t : Transport) (upstreams : List String) (hostname : String)
    (s : Stats) :
    (calculateStatsFor upstream res = Except.ok s → statsWF s)
    ∧ statsWF (GetStatsForUpstreams c t upstreams)
    ∧ (GetStatsForHost c t hostname = Outcome.ok s → statsWF s) := by
  refine ⟨calculateStatsFor_wf upstream res s, ?_, ?_⟩
  · exact foldl_mergeStep_wf c t upstreams _ statsWF_zero
  · intro h
    rw [GetStatsForHost] at h
    cases hres : GetUpstreamsFor c t hostname with
    | panic => rw [hres] at h; exact Outcome.noConfusion h
    | err e => rw [hres] at h; exact Outcome.noConfusion h
    | ok m =>
      rw [hres] at h
      cases hlk : List.lookup hostname m with
      | none => simp [hlk] at h
      | some ux =>
        simp [hlk] at h
        exact h ▸ foldl_mergeStep_wf c t ux _ statsWF_zero

/-! ### Hostname derivation and zone-map grouping -/

lemma splitDash_ne_nil (l : List Char) : splitDash l ≠ [] := by
  cases l with
  | nil => simp [splitDash]
  | cons ch cs =>
    simp only [splitDash]
    cases h : splitDash cs with
    | nil => simp
    | cons hd tl =>
      by_cases hch : ch = '-' <;> simp [hch]

lemma splitDash_headD (l : List Char) :
    (splitDash l).headD [] = l.takeWhile (fun ch => ch != '-') := by
  induction l with
  | nil => rfl
  | cons ch cs ih =>
    simp only [splitDash]
    cases h : splitDash cs with
    | nil => exact absurd h (splitDash_ne_nil cs)
    | cons hd tl =>
      rw [h] at ih
      by_cases hch : ch = '-'
      · subst hch
        simp [List.takeWhile_cons]
      · simp [hch, List.takeWhile_cons, ← ih]

lemma deriveHost_eq_takeWhile (z : String) :
    deriveHost z = String.mk (z.data.takeWhile (fun ch => ch != '-')) := by
  rw [deriveHost, splitDash_headD]

lemma takeWhile_of_not_mem_dash (l : List Char) (h : '-' ∉ l) :
    l.takeWhile (fun ch => ch != '-') = l := by
  induction l with
  | nil => rfl
  | cons ch cs ih =>
    rw [List.mem_cons, not_or] at h
    simp [List.takeWhile_cons, Ne.symm h.1, ih h.2]

lemma deriveHost_of_no_dash (z : String) (h : '-' ∉ z.data) : deriveHost z = z := by
  cases z with
  | mk data =>
    rw [deriveHost_eq_takeWhile]
    exact congrArg String.mk (takeWhile_of_not_mem_dash data h)

/-- Counterexample for claim C3: the zone string "demo-backend" contains a '-', so the
code derives the hostname "demo" from it, not the whole string "demo-backend"
as the claim's example asserts. -/
theorem deriveHost_demo_backend_cex :
    deriveHost "demo-backend" = "demo" ∧ deriveHost "demo-backend" ≠ "demo-backend" := by
  constructor
  · rfl
  · intro h
    have : ("demo" : String) = "demo-backend" := by
      calc ("demo" : String) = deriveHost "demo-backend" := rfl
        _ = "demo-backend" := h
    simp at this

/-- Claim C3 as amended: the hostname derivation yields the segment to the left of
the first '-' character of the zone string, and a zone with no '-' yields the
whole string; zone "bar.example.org-lxr-backend" derives "bar.example.org",
while zone "demo-backend" (which does contain a '-') derives "demo", not the
whole string. -/
theorem deriveHost_left_of_first_dash (z : String) :
    deriveHost z = String.mk (z.data.takeWhile (fun ch => ch != '-'))
    ∧ ('-' ∉ z.data → deriveHost z = z)
    ∧ deriveHost "bar.example.org-lxr-backend" = "bar.example.org"
    ∧ deriveHost "demo-backend" = "demo" :=
  ⟨deriveHost_eq_takeWhile z, deriveHost_of_no_dash z, rfl, rfl⟩

/-- The zone string of one decoded zone-map entry value, when the value is an
object whose "zone" field is a string; `none` in every skipped case. -/
def zoneOf (v : Json) : Option String :=
  match v with
  | Json.obj fields =>
    match List.lookup "zone" fields with
    | some (Json.str z) => some z
    | _ => none
  | _ => none

lemma processZoneEntry_eq (hostname : String) (m : List (String × List String))
    (u : String) (v : Json) :
    processZoneEntry hostname m u v
      = match zoneOf v with
        | some z => if deriveHost z = hostname then addUpstream m (deriveHost z) u else m
        | none => m := by
  cases v with
  | obj fields =>
    simp only [processZoneEntry, zoneOf]
    cases h : List.lookup "zone" fields with
    | none => simp
    | some j => cases j <;> simp
  | null => rfl
  | bool b => rfl
  | num n => rfl
  | str s => rfl
  | arr l => rfl

lemma processZoneEntry_of_none (hostname : String) (m : List (String × List String))
    (u : String) (v : Json) (h : zoneOf v = none) :
    processZoneEntry hostname m u v = m := by
  rw [processZoneEntry_eq, h]

lemma processZoneEntry_of_some (hostname : String) (m : List (String × List String))
    (u : String) (v : Json) (z : String) (h : zoneOf v = some z) :
    processZoneEntry hostname m u v
      = if deriveHost z = hostname then addUpstream m (deriveHost z) u else m := by
  rw [processZoneEntry_eq, h]

/-- The upstream names of the zone-map entries whose derived hostname equals
the requested one, in entry order. -/
def matchingUpstreams (hostname : String) (entries : List (String × Json)) : List String :=
  entries.filterMap (fun e =>
    match zoneOf e.2 with
    | some z => if deriveHost z = hostname then some e.1 else none
    | none => none)

lemma foldZone_cons_acc (hostname : String) (entries : List (String × Json))
    (ns : List String) :
    entries.foldl (fun m e => processZoneEntry hostname m e.1 e.2) [(hostname, ns)]
      = [(hostname, ns ++ matchingUpstreams hostname entries)] := by
  induction entries generalizing ns with
  | nil => simp [matchingUpstreams]
  | cons e rest ih =>
    rw [List.foldl_cons]
    cases hz : zoneOf e.2 with
    | none =>
      have hm : matchingUpstreams hostname (e :: rest) = matchingUpstreams hostname rest := by
        simp [matchingUpstreams, List.filterMap_cons, hz]
      rw [processZoneEntry_of_none hostname _ e.1 e.2 hz, hm]
      exact ih ns
    | some z =>
      rw [processZoneEntry_of_some hostname _ e.1 e.2 z hz]
      by_cases hd : deriveHost z = hostname
      · rw [if_pos hd, hd]
        have hadd : addUpstream [(hostname, ns)] hostname e.1
            = [(hostname, ns ++ [e.1])] := by
          simp [addUpstream, List.lookup]
        rw [hadd, ih (ns ++ [e.1])]
        have hm : matchingUpstreams hostname (e :: rest)
            = e.1 :: matchingUpstreams hostname rest := by
          simp [matchingUpstreams, List.filterMap_cons, hz, hd]
        rw [hm, List.append_assoc]
        rfl
      · rw [if_neg hd]
        have hm : matchingUpstreams hostname (e :: rest) = matchingUpstreams hostname rest := by
          simp [matchingUpstreams, List.filterMap_cons, hz, hd]
        rw [hm]
        exact ih ns

lemma foldZone_nil_acc (hostname : String) (entries : List (String × Json)) :
    entries.foldl (fun m e => processZoneEntry hostname m e.1 e.2) []
      = (if matchingUpstreams hostname entries = [] then []
         else [(hostname, matchingUpstreams hostname entries)]) := by
  induction entries with
  | nil => simp [matchingUpstreams]
  | cons e rest ih =>
    rw [List.foldl_cons]
    cases hz : zoneOf e.2 with
    | none =>
      have hm : matchingUpstreams hostname (e :: rest) = matchingUpstreams hostname rest := by
        simp [matchingUpstreams, List.filterMap_cons, hz]
      rw [processZoneEntry_of_none hostname _ e.1 e.2 hz, hm]
      exact ih
    | some z =>
      rw [processZoneEntry_of_some hostname _ e.1 e.2 z hz]
      by_cases hd : deriveHost z = hostname
      · rw [if_pos hd, hd]
        have hadd : addUpstream ([] : List (String × List String)) hostname e.1
            = [(hostname, [e.1])] := rfl
        rw [hadd, foldZone_cons_acc]
        have hm : matchingUpstreams hostname (e :: rest)
            = e.1 :: matchingUpstreams hostname rest := by
          simp [matchingUpstreams, List.filterMap_cons, hz, hd]
        rw [hm]
        simp
      · rw [if_neg hd]
        have hm : matchingUpstreams hostname (e :: rest) = matchingUpstreams hostname rest := by
          simp [matchingUpstreams, List.filterMap_cons, hz, hd]
        rw [hm]
        exact ih

/-- Claim C7: on a successfully decoded zone object, the grouping returns — and
`GetUpstreamsFor` then returns without error — a mapping with at most the one
requested hostname key, holding exactly the upstream names whose derived
hostname equals the requested one (here even in entry order, which implies the
set equality the claim asks); zero matches yield the empty mapping, not an
error. -/
theorem getUpstreamsFor_matching_characterization (hostname : String)
    (entries : List (String × Json)) (c : Client) (t : Transport) :
    hostnameUpstreamsFromResponse hostname (Json.obj entries)
      = some (if matchingUpstreams hostname entries = [] then []
              else [(hostname, matchingUpstreams hostname entries)])
    ∧ (t.getZones (zonesURL c) = Except.ok (Json.obj entries) →
        GetUpstreamsFor c t hostname
          = Outcome.ok (if matchingUpstreams hostname entries = [] then []
                        else [(hostname, matchingUpstreams hostname entries)])) := by
  have hmain : hostnameUpstreamsFromResponse hostname (Json.obj entries)
      = some (if matchingUpstreams hostname entries = [] then []
              else [(hostname, matchingUpstreams hostname entries)]) := by
    rw [hostnameUpstreamsFromResponse, foldZone_nil_acc]
  refine ⟨hmain, fun hok => ?_⟩
  rw [GetUpstreamsFor, hok]
  simp only [hmain]

/-- Claim C10: a zone-query body that is valid JSON but not an object hits the
unchecked type assertion: `hostnameUpstreamsFromResponse` panics (modelled as
`none`) and `GetUpstreamsFor` accordingly panics rather than returning a
decode error; by contrast an entry whose value is not an object, or whose
"zone" field is missing or not a string, is skipped without being fatal. -/
theorem zoneResponse_non_object_panics (hostname : String) (c : Client)
    (t : Transport) (b : Bool) (n : Int) (s : String) (l : List Json) (u : String)
    (fields : List (String × Json)) (entries : List (String × Json)) :
    hostnameUpstreamsFromResponse hostname Json.null = none
    ∧ hostnameUpstreamsFromResponse hostname (Json.bool b) = none
    ∧ hostnameUpstreamsFromResponse hostname (Json.num n) = none
    ∧ hostnameUpstreamsFromResponse hostname (Json.str s) = none
    ∧ hostnameUpstreamsFromResponse hostname (Json.arr l) = none
    ∧ (t.getZones (zonesURL c) = Except.ok (Json.arr l) →
        GetUpstreamsFor c t hostname = Outcome.panic)
    ∧ hostnameUpstreamsFromResponse hostname (Json.obj ((u, Json.num n) :: entries))
        = hostnameUpstreamsFromResponse hostname (Json.obj entries)
    ∧ (List.lookup "zone" fields = some (Json.num n) →
        hostnameUpstreamsFromResponse hostname (Json.obj ((u, Json.obj fields) :: entries))
          = hostnameUpstreamsFromResponse hostname (Json.obj entries))
    ∧ (hostnameUpstreamsFromResponse hostname (Json.obj entries)).isSome = true := by
  refine ⟨rfl, rfl, rfl, rfl, rfl, fun hok => ?_, rfl, fun hz => ?_, rfl⟩
  · rw [GetUpstreamsFor, hok]
    rfl
  · rw [hostnameUpstreamsFromResponse, hostnameUpstreamsFromResponse]
    rw [List.foldl_cons]
    have : processZoneEntry hostname [] u (Json.obj fields) = [] := by
      rw [processZoneEntry_eq]
      simp [zoneOf, hz]
    rw [this]

/-! ### GetStatsForHost and client construction -/

/-- Claim C6: `GetStatsForHost` returns an error exactly when the resolution step
returns an error (then propagated wrapped with the hostname) or the requested
hostname is absent from the resolved mapping; when the key is present it
returns the result of `GetStatsForUpstreams` on the resolved names, which has
no error result, so no per-upstream fetch error is propagated. -/
theorem getStatsForHost_error_characterization (c : Client) (t : Transport)
    (hostname : String) :
    ((∃ e, GetStatsForHost c t hostname = Outcome.err e) ↔
      ((∃ e, GetUpstreamsFor c t hostname = Outcome.err e) ∨
       (∃ m, GetUpstreamsFor c t hostname = Outcome.ok m
          ∧ List.lookup hostname m = none)))
    ∧ (∀ e, GetUpstreamsFor c t hostname = Outcome.err e →
        GetStatsForHost c t hostname
          = Outcome.err ("getting stats for host " ++ hostname ++ ": " ++ e))
    ∧ (∀ m ux, GetUpstreamsFor c t hostname = Outcome.ok m →
        List.lookup hostname m = some ux →
        GetStatsForHost c t hostname
          = Outcome.ok (GetStatsForUpstreams c t ux)) := by
  cases hres : GetUpstreamsFor c t hostname with
  | panic =>
    have hsh : GetStatsForHost c t hostname = Outcome.panic := by
      rw [GetStatsForHost, hres]
    refine ⟨⟨?_, ?_⟩, ?_, ?_⟩
    · rintro ⟨e, he⟩
      rw [hsh] at he
      exact absurd he (by simp)
    · rintro (⟨e, he⟩ | ⟨m, hm, _⟩)
      · exact absurd he (by simp)
      · exact absurd hm (by simp)
    · intro e he
      exact absurd he (by simp)
    · intro m ux hm hl
      exact absurd hm (by simp)
  | err e0 =>
    have hsh : GetStatsForHost c t hostname
        = Outcome.err ("getting stats for host " ++ hostname ++ ": " ++ e0) := by
      rw [GetStatsForHost, hres]
    refine ⟨⟨?_, ?_⟩, ?_, ?_⟩
    · intro _
      exact Or.inl ⟨e0, rfl⟩
    · intro _
      exact ⟨_, hsh⟩
    · intro e he
      have he2 : e0 = e := Outcome.err.inj he
      subst he2
      exact hsh
    · intro m ux hm hl
      exact absurd hm (by simp)
  | ok m0 =>
    cases hlk : List.lookup hostname m0 with
    | none =>
      have hsh : GetStatsForHost c t hostname
          = Outcome.err ("no stat data for host " ++ hostname) := by
        rw [GetStatsForHost, hres]
        simp [hlk]
      refine ⟨⟨?_, ?_⟩, ?_, ?_⟩
      · intro _
        exact Or.inr ⟨m0, rfl, hlk⟩
      · intro _
        exact ⟨_, hsh⟩
      · intro e he
        exact absurd he (by simp)
      · intro m ux hm hl
        have h1 : m0 = m := Outcome.ok.inj hm
        subst h1
        rw [hlk] at hl
        exact Option.noConfusion hl
    | some ux0 =>
      have hsh : GetStatsForHost c t hostname
          = Outcome.ok (GetStatsForUpstreams c t ux0) := by
        rw [GetStatsForHost, hres]
        simp [hlk]
      refine ⟨⟨?_, ?_⟩, ?_, ?_⟩
      · rintro ⟨e, he⟩
        rw [hsh] at he
        exact absurd he (by simp)
      · rintro (⟨e, he⟩ | ⟨m, hm, hl⟩)
        · exact absurd he (by simp)
        · have h1 : m0 = m := Outcome.ok.inj hm
          subst h1
          rw [hlk] at hl
          exact Option.noConfusion hl
      · intro e he
        exact absurd he (by simp)
      · intro m ux hm hl
        have h1 : m0 = m := Outcome.ok.inj hm
        subst h1
        rw [hlk] at hl
        have h2 : ux0 = ux := Option.some.inj hl
        subst h2
        exact hsh

/-- Counterexample for claim C8: the constructor performs no URL syntax validation
beyond the emptiness check, so a malformed non-empty base URL is accepted and
a client is produced. -/
theorem newClient_accepts_malformed_url :
    NewClient "://not a valid url" [] = Except.ok ⟨8, "://not a valid url"⟩ := rfl

/-- Claim C8 as amended: `NewClient` fails exactly on the empty base URL — any
non-empty string, well-formed URL or not, is accepted — producing no client on
failure; `WithVersion` succeeds exactly on the supported versions 4–8, setting
the version, and fails outside that set (e.g. 9 and 99); options run in
sequence with the first failure aborting construction; and a non-empty URL
with no options yields a client with the default version 8. -/
theorem newClient_withVersion_spec (baseURL : String) (opts : List option)
    (v : Int) (c : Client) (o : option) (os : List option) (e : String)
    (c2 : Client) :
    NewClient "" opts = Except.error "invalid base URL"
    ∧ (baseURL ≠ "" → NewClient baseURL opts = applyOptions opts ⟨8, baseURL⟩)
    ∧ NewClient "http://localhost:9001" []
        = Except.ok ⟨8, "http://localhost:9001"⟩
    ∧ ((∃ c3, WithVersion v c = Except.ok c3) ↔
        (v = 4 ∨ v = 5 ∨ v = 6 ∨ v = 7 ∨ v = 8))
    ∧ ((v = 4 ∨ v = 5 ∨ v = 6 ∨ v = 7 ∨ v = 8) →
        WithVersion v c = Except.ok ⟨v, c.baseURL⟩)
    ∧ ((v = 9 ∨ v = 99) → ∃ e2, WithVersion v c = Except.error e2)
    ∧ (o c = Except.error e → applyOptions (o :: os) c = Except.error e)
    ∧ (o c = Except.ok c2 → applyOptions (o :: os) c = applyOptions os c2) := by
  refine ⟨rfl, ?_, rfl, ⟨?_, ?_⟩, ?_, ?_, ?_, ?_⟩
  · intro h
    rw [NewClient, if_neg h]
  · rintro ⟨c3, hc⟩
    by_contra hv
    rw [WithVersion] at hc
    rw [if_neg hv] at hc
    exact Except.noConfusion hc
  · intro hv
    exact ⟨{ c with version := v }, by rw [WithVersion, if_pos hv]⟩
  · intro hv
    rw [WithVersion, if_pos hv]
  · rintro (hv | hv) <;> subst hv
    · exact ⟨"unsupported NGINX version: " ++ toString (9 : Int),
        by rw [WithVersion, if_neg (by omega)]⟩
    · exact ⟨"unsupported NGINX version: " ++ toString (99 : Int),
        by rw [WithVersion, if_neg (by omega)]⟩
  · intro h
    rw [applyOptions, h]
  · intro h
    rw [applyOptions, h]

end NginxHealthz
